import Mathlib

/-!
Verification of the email discovery core (`server/python/email_sleuth.py`):
name normalization, candidate pattern generation, MX resolution, SMTP
probing, confidence scoring and candidate ranking.

Python strings are modelled as Lean `String`/`List Char`; the tri-state
`verified` flag (`True`/`False`/`None`) is modelled as `Option Bool`;
network effects (DNS answers, the port-25 availability check, the SMTP
transaction outcome) are modelled as an explicit environment so the
control flow of `discover_email` is a pure function of that environment.
An uncaught Python exception is modelled as `Option.none` in the result
of `discover_email`.
-/

/-- Whitespace characters of Python's `str.strip` / `\s` (ASCII range). -/
def pyIsSpace (c : Char) : Bool :=
  c == ' ' || c == '\t' || c == '\n' || c == '\r' || c == '\x0b' || c == '\x0c'

/-- Characters kept by `re.sub(r'[^a-z\s\-]', '', name)`. -/
def keepChar (c : Char) : Bool :=
  (decide ('a' ≤ c) && decide (c ≤ 'z')) || pyIsSpace c || c == '-'

/-- Python `str.strip()` on a character list. -/
def pyStripL (l : List Char) : List Char :=
  ((l.dropWhile pyIsSpace).reverse.dropWhile pyIsSpace).reverse

/-- Python `str.lower()` (ASCII case folding). -/
def pyLower (s : String) : String :=
  String.mk (s.toList.map Char.toLower)

/-- Helper of `splitWs`: `acc` holds the current token reversed. -/
def splitWsAux : List Char → List Char → List (List Char)
  | [], acc => if acc.isEmpty then [] else [acc.reverse]
  | c :: cs, acc =>
    if pyIsSpace c then
      if acc.isEmpty then splitWsAux cs [] else acc.reverse :: splitWsAux cs []
    else splitWsAux cs (c :: acc)

/-- Python `str.split()` with no separator: split on runs of whitespace,
discarding empty pieces. -/
def splitWs (l : List Char) : List (List Char) :=
  splitWsAux l []

/-- The token list of `normalize_name`: strip, lower-case, remove every
character outside `[a-z\s-]`, split on whitespace (lines 34-36 of
`email_sleuth.py`). -/
def normalize_tokens (name : String) : List (List Char) :=
  splitWs (((pyStripL name.toList).map Char.toLower).filter keepChar)

/-- `normalize_name` (lines 32-51): pick first and last token (middle
tokens discarded), then remove hyphens from the chosen tokens. -/
def normalize_name (name : String) : String × String :=
  let parts := normalize_tokens name
  let fl : List Char × List Char :=
    if 2 ≤ parts.length then (parts.headD [], parts.getLastD [])
    else if parts.length = 1 then (parts.headD [], [])
    else ([], [])
  (String.mk (fl.1.filter (fun c => !(c == '-'))),
   String.mk (fl.2.filter (fun c => !(c == '-'))))

/-- The `EmailCandidate` dataclass (lines 23-29). `verified` is the
nullable boolean of the source: `none` = not probed or inconclusive. -/
structure EmailCandidate where
  email : String
  pattern : String
  confidence : Int
  verified : Option Bool := none
  verification_message : String := ""
deriving DecidableEq, Repr

/-- First character of a string as a (possibly empty) string:
Python `s[0] if s else ""`. -/
def str1 (s : String) : String :=
  String.mk (s.toList.take 1)

/-- The `pattern_templates` list of `generate_email_patterns`
(lines 64-75), given `first`, `last`, their first letters `f`, `l`,
and the domain. -/
def mkTemplates (first last f l domain : String) : List (String × String × Int) :=
  [ (first ++ "." ++ last ++ "@" ++ domain, "firstname.lastname", 95),
    (first ++ last ++ "@" ++ domain, "firstnamelastname", 90),
    (f ++ last ++ "@" ++ domain, "f.lastname", 85),
    (first ++ "_" ++ last ++ "@" ++ domain, "firstname_lastname", 80),
    (first ++ "-" ++ last ++ "@" ++ domain, "firstname-lastname", 75),
    (last ++ "." ++ first ++ "@" ++ domain, "lastname.firstname", 70),
    (f ++ "." ++ last ++ "@" ++ domain, "f.lastname", 65),
    (first ++ "@" ++ domain, "firstname", 60),
    (first ++ l ++ "@" ++ domain, "firstnamel", 55),
    (f ++ l ++ "@" ++ domain, "fl", 50) ]

/-- Python `email.startswith('@')`. -/
def startsWithAt (s : String) : Bool :=
  match s.toList with
  | '@' :: _ => true
  | _ => false

/-- The per-template candidate construction of lines 78-84: keep a
template whose address is non-empty, contains `@` and does not start
with `@`; the stored address is lower-cased. -/
def keepCandidate (t : String × String × Int) : Option EmailCandidate :=
  if !(t.1 == "") && t.1.toList.contains '@' && !(startsWithAt t.1) then
    some ⟨pyLower t.1, t.2.1, t.2.2, none, ""⟩
  else none

/-- De-duplication by address keeping the first occurrence (lines 92-97);
`seen` is the set of already-seen addresses. -/
def dedupBy : List EmailCandidate → List String → List EmailCandidate
  | [], _ => []
  | p :: ps, seen =>
    if seen.contains p.email then dedupBy ps seen
    else p :: dedupBy ps (p.email :: seen)

/-- `generate_email_patterns` (lines 54-99). -/
def generate_email_patterns (first last domain : String) : List EmailCandidate :=
  if first = "" ∨ domain = "" then []
  else
    let f := if first = "" then "" else str1 first
    let l := if last = "" then "" else str1 last
    let patterns :=
      if last = "" then
        [⟨pyLower (first ++ "@" ++ domain), "firstname", 60, none, ""⟩]
      else
        (mkTemplates first last f l domain).filterMap keepCandidate
    dedupBy patterns []

/-- Outcome of one attempted SMTP transaction against one host for one
recipient, as observed by `verify_email_smtp`: either the server's reply
code and text to the RCPT command, or one of the caught exceptions. -/
inductive SmtpEvent where
  | reply (code : Nat) (text : String)
  | connectFail (detail : String)
  | disconnected
  | timeout
  | otherError (detail : String)
deriving DecidableEq, Repr

/-- `verify_email_smtp` (lines 111-138): maps the transaction outcome to
the `(verified, message)` pair. -/
def verify_email_smtp : SmtpEvent → Option Bool × String
  | .reply code text =>
    if code = 250 then (some true, "SMTP verified: " ++ text)
    else if code = 550 then (some false, "Email does not exist: " ++ text)
    else (none, "Inconclusive: " ++ toString code ++ " " ++ text)
  | .connectFail d => (none, "Connection failed: " ++ d)
  | .disconnected => (none, "Server disconnected")
  | .timeout => (none, "Connection timeout (port 25 may be blocked)")
  | .otherError d => (none, "Verification error: " ++ d)

/-- Python `str.rstrip('.')`. -/
def stripDots (s : String) : String :=
  String.mk ((s.toList.reverse.dropWhile (fun c => c == '.')).reverse)

/-- Comparison relation of `sorted(mx_records, key=lambda x: x.preference)`:
ascending preference, stable. -/
def prefLe (a b : Nat × String) : Prop := a.1 ≤ b.1

instance : DecidableRel prefLe := fun a b => by unfold prefLe; infer_instance

instance : IsTotal (Nat × String) prefLe :=
  ⟨fun a b => by unfold prefLe; omega⟩

instance : IsTrans (Nat × String) prefLe :=
  ⟨fun a b c h1 h2 => by unfold prefLe at h1 h2 ⊢; omega⟩

/-- Stable ascending sort by MX preference (line 106). -/
def sortByPref (recs : List (Nat × String)) : List (Nat × String) :=
  List.insertionSort prefLe recs

/-- `get_mx_records` (lines 102-108). The DNS lookup is the environment
function `dns`: `none` models any raised resolver exception (NXDOMAIN,
timeout, no records), `some recs` a successful answer as
(preference, exchange) pairs. -/
def get_mx_records (dns : String → Option (List (Nat × String))) (domain : String) :
    List String :=
  match dns domain with
  | none => []
  | some recs => (sortByPref recs).map (fun r => stripDots r.2)

/-- One probing step of the loop in `discover_email` (lines 206-215):
store the probe outcome on the candidate and adjust its confidence. -/
def probeOne (pr : String → Option Bool × String) (c : EmailCandidate) : EmailCandidate :=
  let vm := pr c.email
  let c1 := { c with verified := vm.1, verification_message := vm.2 }
  match vm.1 with
  | some true => { c1 with confidence := min 100 (c1.confidence + 10) }
  | some false => { c1 with confidence := max 0 (c1.confidence - 30) }
  | none => c1

/-- The probe loop of `discover_email` (lines 206-215): walk the first
`n` candidates in order; on an accepted probe adjust and stop, otherwise
adjust and continue; candidates beyond the cap are untouched. -/
def probeLoop (pr : String → Option Bool × String) :
    List EmailCandidate → Nat → List EmailCandidate
  | [], _ => []
  | c :: cs, 0 => c :: cs
  | c :: cs, Nat.succ n =>
    match (pr c.email).1 with
    | some true => probeOne pr c :: cs
    | some false => probeOne pr c :: probeLoop pr cs n
    | none => probeOne pr c :: probeLoop pr cs n

/-- Whether the probe of candidate `c` comes back accepted. -/
def accepts (pr : String → Option Bool × String) (c : EmailCandidate) : Bool :=
  (pr c.email).1 == some true

/-- Whether the candidate at index `i` gets probed by `probeLoop pr cs n`:
it is within the cap and no earlier candidate was accepted. -/
def probedIdx (pr : String → Option Bool × String) (cs : List EmailCandidate)
    (n i : Nat) : Bool :=
  decide (i < n) && (cs.take i).all (fun c => !accepts pr c)

/-- The composite sort key of the ranking (lines 217-221): Python's tuple
`(verified is True, verified is None and verified is not False, confidence)`
with booleans as 0/1. -/
def candKey (c : EmailCandidate) : Nat × Nat × Int :=
  ((if c.verified = some true then 1 else 0),
   (if c.verified = none ∧ ¬(c.verified = some false) then 1 else 0),
   c.confidence)

/-- Lexicographic order on sort keys. -/
def keyLe (a b : Nat × Nat × Int) : Prop :=
  a.1 < b.1 ∨ (a.1 = b.1 ∧ (a.2.1 < b.2.1 ∨ (a.2.1 = b.2.1 ∧ a.2.2 ≤ b.2.2)))

instance : DecidableRel keyLe := fun a b => by unfold keyLe; infer_instance

/-- `candRel a b` holds when `a` may come before `b` in the descending
ranked order (`key b ≤ key a`): this is the sort relation realising
Python's stable `sort(key=..., reverse=True)`. -/
def candRel (a b : EmailCandidate) : Prop := keyLe (candKey b) (candKey a)

instance : DecidableRel candRel := fun a b => by unfold candRel; infer_instance

/-- The ranking of lines 217-221: stable sort, descending by `candKey`. -/
def rankSort (l : List EmailCandidate) : List EmailCandidate :=
  List.insertionSort candRel l

/-- Rank of a verification state: Accepted 2, Unknown 1, Rejected 0. -/
def stateRankOf (v : Option Bool) : Nat :=
  match v with
  | some true => 2
  | none => 1
  | some false => 0

instance : IsTotal EmailCandidate candRel :=
  ⟨fun a b => by unfold candRel keyLe; omega⟩

instance : IsTrans EmailCandidate candRel :=
  ⟨fun a b c h1 h2 => by unfold candRel keyLe at h1 h2 ⊢; omega⟩

/-- The network environment of one discovery run: the DNS resolver, the
port-25 availability answer of `check_smtp_available`, and the SMTP
transaction outcome per (mx-host, recipient) pair. -/
structure Env where
  dns : String → Option (List (Nat × String))
  smtpAvail : Bool
  probe : String → String → SmtpEvent

/-- The conditional probing phase (lines 204-215): probe only when
verification was requested, the availability check passed and there is
at least one MX record, using the highest-priority host. -/
def applyProbing (env : Env) (mx_records : List String) (verify_smtp smtp_available : Bool)
    (max_verify : Nat) (candidates : List EmailCandidate) : List EmailCandidate :=
  if verify_smtp && smtp_available && !mx_records.isEmpty then
    match mx_records with
    | [] => candidates
    | mx0 :: _ =>
      probeLoop (fun e => verify_email_smtp (env.probe mx0 e)) candidates max_verify
  else candidates

/-- The success payload of `discover_email` (lines 226-239). -/
structure DiscoveryReport where
  name : String
  firstName : String
  lastName : String
  domain : String
  hasMxRecords : Bool
  mxRecords : List String
  smtpAvailable : Bool
  bestMatch : Option EmailCandidate
  verifiedEmails : List EmailCandidate
  allCandidates : List EmailCandidate
  candidateCount : Nat
deriving DecidableEq, Repr

/-- A returned value of `discover_email`: either a `success:false` dict
with an error string, or a full report. -/
inductive DiscoverOutcome where
  | failure (error name domain : String)
  | report (r : DiscoveryReport)
deriving DecidableEq, Repr

/-- Python `s.split('//')`: split on non-overlapping occurrences of the
two-character separator, scanning left to right; `acc` holds the current
piece reversed. -/
def splitDSlash : List Char → List Char → List (List Char)
  | [], acc => [acc.reverse]
  | '/' :: '/' :: cs, acc => acc.reverse :: splitDSlash cs []
  | c :: cs, acc => splitDSlash cs (c :: acc)

/-- Python `s.split('/')`. -/
def splitSlash : List Char → List Char → List (List Char)
  | [], acc => [acc.reverse]
  | c :: cs, acc =>
    if c = '/' then acc.reverse :: splitSlash cs []
    else splitSlash cs (c :: acc)

/-- The scheme-stripping step of lines 182-183:
`domain.split('//')[1].split('/')[0]` guarded by `startswith('http')`.
The `[1]` indexing raises `IndexError` when the split produced a single
piece; that fault is modelled as `none`. -/
def stripHttp (d : List Char) : Option (List Char) :=
  if ("http".toList).isPrefixOf d then
    match splitDSlash d [] with
    | _ :: x :: _ => some ((splitSlash x []).headD [])
    | _ => none
  else some d

/-- The success path of `discover_email` after input validation and
domain resolution (lines 187-239), as a pure function of the
environment. -/
def runPipeline (env : Env) (name first last domainS : String)
    (verify_smtp : Bool) (max_verify : Nat) : DiscoveryReport :=
  let candidates := generate_email_patterns first last domainS
  let mx_records := get_mx_records env.dns domainS
  let has_mx := !mx_records.isEmpty
  let smtp_available := if verify_smtp && has_mx then env.smtpAvail else false
  let ranked := rankSort (applyProbing env mx_records verify_smtp smtp_available
    max_verify candidates)
  { name := name, firstName := first, lastName := last, domain := domainS,
    hasMxRecords := has_mx, mxRecords := mx_records.take 3,
    smtpAvailable := smtp_available,
    bestMatch := ranked.head?,
    verifiedEmails := ranked.filter (fun c => c.verified == some true),
    allCandidates := ranked,
    candidateCount := ranked.length }

/-- `discover_email` (lines 153-239). `none` models an uncaught fatal
exception escaping the function. -/
def discover_email (env : Env) (name domain0 : String) (verify_smtp : Bool)
    (max_verify : Nat) : Option DiscoverOutcome :=
  let fl := normalize_name name
  if fl.1 = "" then
    some (.failure "Could not extract first name from input" name domain0)
  else
    match stripHttp (pyStripL (pyLower domain0).toList) with
    | none => none
    | some d2 =>
      let d3 := if ("www.".toList).isPrefixOf d2 then d2.drop 4 else d2
      let domainS := String.mk d3
      if generate_email_patterns fl.1 fl.2 domainS = [] then
        some (.failure "Could not generate email patterns" name domainS)
      else some (.report (runPipeline env name fl.1 fl.2 domainS verify_smtp max_verify))

/-- Example environment in which no domain has MX records. -/
def envNoMx : Env :=
  { dns := fun _ => none, smtpAvail := true, probe := fun _ _ => SmtpEvent.disconnected }

/-- Example environment whose mail server accepts exactly `jsmith@acme.com`. -/
def envAcc : Env :=
  { dns := fun _ => some [(10, "mx1.acme.com.")], smtpAvail := true,
    probe := fun _ e =>
      if e = "jsmith@acme.com" then SmtpEvent.reply 250 "ok"
      else SmtpEvent.reply 421 "busy" }

/-- The report produced by a run against `envNoMx`. -/
def repNoMx : DiscoveryReport := runPipeline envNoMx "Jane Doe" "jane" "doe" "acme.com" true 5

/-- The report produced by a run against `envAcc`. -/
def repAcc : DiscoveryReport := runPipeline envAcc "John Smith" "john" "smith" "acme.com" true 5

/-- Example DNS table used by the MX-resolver witness. -/
def dnsEx : String → Option (List (Nat × String)) :=
  fun d => if d = "acme.com" then some [(20, "mx2.acme.com."), (10, "mx1.acme.com.")] else none

/-- Example probe answers: accept exactly `b@x.com`. -/
def prEx : String → Option Bool × String :=
  fun e => if e = "b@x.com" then (some true, "ok") else (none, "na")

/-- Example candidate sitting beyond the early exit of the probe loop. -/
def cEx3 : EmailCandidate := ⟨"c@x.com", "p3", 70, none, ""⟩

/-- Example candidate list whose second candidate is the accepted one. -/
def csEx : List EmailCandidate :=
  [⟨"a@x.com", "p1", 90, none, ""⟩, ⟨"b@x.com", "p2", 80, none, ""⟩, cEx3]

/-! ### Helper lemmas -/

lemma stringMk_nil : String.mk [] = "" := rfl

lemma stringMk_eq_empty {l : List Char} : String.mk l = "" ↔ l = [] := by
  constructor
  · intro h
    exact congrArg String.data h
  · intro h
    subst h
    rfl

/-! ### C1: the concrete pattern-generator outputs -/

/-- C1 (counterexample): for first `john`, last `smith`, domain `acme.com`
the generator does not return 9 candidates after de-duplication; it
returns 10 (the ten templates compose ten distinct addresses, so nothing
is dropped). -/
theorem generate_patterns_count_ne_nine :
    (generate_email_patterns "john" "smith" "acme.com").length ≠ 9 ∧
    (generate_email_patterns "john" "smith" "acme.com").length = 10 := by
  decide

/-- C1 (amended): `generate_email_patterns "john" "smith" "acme.com"`
returns exactly the 10 template triples, in order, all lower-cased, with
`john.smith@acme.com` first at confidence 95; with an empty last name it
returns exactly the single candidate `john@acme.com` at confidence 60. -/
theorem generate_patterns_john_smith :
    generate_email_patterns "john" "smith" "acme.com" =
      [⟨"john.smith@acme.com", "firstname.lastname", 95, none, ""⟩,
       ⟨"johnsmith@acme.com", "firstnamelastname", 90, none, ""⟩,
       ⟨"jsmith@acme.com", "f.lastname", 85, none, ""⟩,
       ⟨"john_smith@acme.com", "firstname_lastname", 80, none, ""⟩,
       ⟨"john-smith@acme.com", "firstname-lastname", 75, none, ""⟩,
       ⟨"smith.john@acme.com", "lastname.firstname", 70, none, ""⟩,
       ⟨"j.smith@acme.com", "f.lastname", 65, none, ""⟩,
       ⟨"john@acme.com", "firstname", 60, none, ""⟩,
       ⟨"johns@acme.com", "firstnamel", 55, none, ""⟩,
       ⟨"js@acme.com", "fl", 50, none, ""⟩] ∧
    generate_email_patterns "john" "" "acme.com" =
      [⟨"john@acme.com", "firstname", 60, none, ""⟩] := by
  decide

/-! ### C2: the SMTP outcome mapping -/

/-- C2 (counterexample): the probe maps reply code 251 — a 2xx code — to
the inconclusive state, not to Accepted: only code 250 is accepted. -/
theorem smtp_reply_251_not_accepted :
    verify_email_smtp (SmtpEvent.reply 251 "OK") = (none, "Inconclusive: 251 OK") ∧
    (verify_email_smtp (SmtpEvent.reply 251 "OK")).1 ≠ some true := by
  decide

/-- C2 (amended): reply code exactly 250 yields Accepted with the server
text; 550 yields Rejected with the server text; every other reply code —
including every other 2xx code — yields Unknown recording code and text;
connection failure, mid-transaction disconnect, and timeout each yield
Unknown with a message distinguishing the three cases. -/
theorem smtp_outcome_mapping (code : Nat) (text detail : String) :
    verify_email_smtp (SmtpEvent.reply code text) =
      (if code = 250 then (some true, "SMTP verified: " ++ text)
       else if code = 550 then (some false, "Email does not exist: " ++ text)
       else (none, "Inconclusive: " ++ toString code ++ " " ++ text)) ∧
    verify_email_smtp (SmtpEvent.connectFail detail) =
      (none, "Connection failed: " ++ detail) ∧
    verify_email_smtp SmtpEvent.disconnected = (none, "Server disconnected") ∧
    verify_email_smtp SmtpEvent.timeout =
      (none, "Connection timeout (port 25 may be blocked)") ∧
    verify_email_smtp (SmtpEvent.otherError detail) =
      (none, "Verification error: " ++ detail) :=
  ⟨rfl, rfl, rfl, rfl, rfl⟩

/-! ### C5: the scheme-stripping fault -/

/-- C5 (code bug): a discovery run is not fault-free for every input.
For the valid name `Jane Doe` and the domain `httpx.com` — which begins
with `http` but contains no `//` — the scheme-stripping step
`domain.split('//')[1]` indexes past the end of a one-element list and
raises an uncaught IndexError (modelled as `none`), for every
environment, verification flag and probe cap. -/
theorem discover_email_http_index_error (env : Env) (verify_smtp : Bool) (max_verify : Nat) :
    discover_email env "Jane Doe" "httpx.com" verify_smtp max_verify = none := rfl

/-! ### C6: name normalization -/

/-- C6 (counterexample): for the input `john --` the whitespace split
yields two tokens, yet the returned last name is empty: the second token
consists solely of hyphens, which are removed after the split. -/
theorem normalize_name_hyphen_counterexample :
    (normalize_tokens "john --").length = 2 ∧ (normalize_name "john --").2 = "" := by
  decide

/-- C6 (amended): the normalizer lower-cases, strips characters outside
{a-z, space, hyphen}, splits on whitespace, and removes hyphens from the
chosen tokens; with two or more tokens the first and last names are the
first and last tokens with hyphens removed — each non-empty provided its
token contains a non-hyphen character; with one token the last name is
empty; with zero tokens both are empty; the function is total. -/
theorem normalize_name_cases (name : String) :
    (normalize_tokens name = [] → normalize_name name = ("", "")) ∧
    ((normalize_tokens name).length = 1 →
      normalize_name name =
        (String.mk (((normalize_tokens name).headD []).filter (fun c => !(c == '-'))), "")) ∧
    (2 ≤ (normalize_tokens name).length →
      normalize_name name =
        (String.mk (((normalize_tokens name).headD []).filter (fun c => !(c == '-'))),
         String.mk (((normalize_tokens name).getLastD []).filter (fun c => !(c == '-')))) ∧
      ((∃ c ∈ (normalize_tokens name).headD [], ¬(c = '-')) → (normalize_name name).1 ≠ "") ∧
      ((∃ c ∈ (normalize_tokens name).getLastD [], ¬(c = '-')) → (normalize_name name).2 ≠ "")) := by
  refine ⟨?_, ?_, ?_⟩
  · intro h
    simp [normalize_name, h, stringMk_nil]
  · intro h
    have h2 : ¬ (2 ≤ (normalize_tokens name).length) := by omega
    simp [normalize_name, h, h2, stringMk_nil]
  · intro h
    have heq : normalize_name name =
        (String.mk (((normalize_tokens name).headD []).filter (fun c => !(c == '-'))),
         String.mk (((normalize_tokens name).getLastD []).filter (fun c => !(c == '-')))) := by
      simp [normalize_name, h]
    refine ⟨heq, ?_, ?_⟩
    · rintro ⟨c, hc, hne⟩
      rw [heq]
      simp only [ne_eq, stringMk_eq_empty]
      intro hnil
      have hmem : c ∈ ((normalize_tokens name).headD []).filter (fun c => !(c == '-')) :=
        List.mem_filter.mpr ⟨hc, by simpa using hne⟩
      rw [hnil] at hmem
      simp at hmem
    · rintro ⟨c, hc, hne⟩
      rw [heq]
      simp only [ne_eq, stringMk_eq_empty]
      intro hnil
      have hmem : c ∈ ((normalize_tokens name).getLastD []).filter (fun c => !(c == '-')) :=
        List.mem_filter.mpr ⟨hc, by simpa using hne⟩
      rw [hnil] at hmem
      simp at hmem

/-- C6 witness: the amended theorem applied to the concrete name
`mary jane`, which has two tokens, yields a non-empty last name. -/
theorem normalize_name_cases_witness : (normalize_name "mary jane").2 ≠ "" :=
  ((normalize_name_cases "mary jane").2.2 (by decide)).2.2 ⟨'j', by decide, by decide⟩

/-! ### C3: probe-loop dynamics -/

lemma probeLoop_length (pr : String → Option Bool × String) :
    ∀ (cs : List EmailCandidate) (n : Nat), (probeLoop pr cs n).length = cs.length := by
  intro cs
  induction cs with
  | nil => intro n; simp [probeLoop]
  | cons c cs ih =>
    intro n
    cases n with
    | zero => simp [probeLoop]
    | succ n =>
      cases hv : (pr c.email).1 with
      | none => simp [probeLoop, hv, ih n]
      | some b => cases b <;> simp [probeLoop, hv, ih n]

lemma probeLoop_getElem (pr : String → Option Bool × String) :
    ∀ (cs : List EmailCandidate) (n i : Nat),
      (probeLoop pr cs n)[i]? =
        if probedIdx pr cs n i then (cs[i]?).map (probeOne pr) else cs[i]? := by
  intro cs
  induction cs with
  | nil =>
    intro n i
    simp [probeLoop]
  | cons c cs ih =>
    intro n i
    cases n with
    | zero => simp [probeLoop, probedIdx]
    | succ n =>
      cases hv : (pr c.email).1 with
      | none =>
        cases i with
        | zero => simp [probeLoop, hv, probedIdx]
        | succ j =>
          have hpi : probedIdx pr (c :: cs) (n + 1) (j + 1) = probedIdx pr cs n j := by
            simp [probedIdx, List.take_succ_cons, accepts, hv, Nat.succ_lt_succ_iff]
          simp [probeLoop, hv, hpi, ih n j]
      | some b =>
        cases b with
        | false =>
          cases i with
          | zero => simp [probeLoop, hv, probedIdx]
          | succ j =>
            have hpi : probedIdx pr (c :: cs) (n + 1) (j + 1) = probedIdx pr cs n j := by
              simp [probedIdx, List.take_succ_cons, accepts, hv, Nat.succ_lt_succ_iff]
            simp [probeLoop, hv, hpi, ih n j]
        | true =>
          cases i with
          | zero => simp [probeLoop, hv, probedIdx]
          | succ j =>
            have hpi : probedIdx pr (c :: cs) (n + 1) (j + 1) = false := by
              simp [probedIdx, List.take_succ_cons, accepts, hv]
            simp [probeLoop, hv, hpi]

/-- C3: the probe loop touches exactly the candidates that lie within the
cap and come no later than the first accepted candidate, in generation
order. The result keeps the list's length; position `i` holds
`probeOne`-updated data — confidence `+10` clamped to 100 on accept,
`-30` clamped to 0 on reject, unchanged when inconclusive — iff `i` is
within the cap and no earlier candidate was accepted (so the loop stops
at the first acceptance); every untouched candidate — in particular every
candidate after the first accepted one — keeps its state, which is
Unknown whenever probing started from unprobed candidates. -/
theorem probe_loop_dynamics (pr : String → Option Bool × String)
    (cs : List EmailCandidate) (n : Nat) :
    (probeLoop pr cs n).length = cs.length ∧
    (∀ i : Nat, (probeLoop pr cs n)[i]? =
      if probedIdx pr cs n i then (cs[i]?).map (probeOne pr) else cs[i]?) ∧
    (∀ i : Nat, ∀ c : EmailCandidate, (∀ d ∈ cs, d.verified = none) →
      probedIdx pr cs n i = false → (probeLoop pr cs n)[i]? = some c →
      c.verified = none) := by
  refine ⟨probeLoop_length pr cs n, fun i => probeLoop_getElem pr cs n i, ?_⟩
  intro i c h0 hpi hsome
  rw [probeLoop_getElem pr cs n i, hpi] at hsome
  simp at hsome
  exact h0 c (List.getElem?_mem hsome)

/-- C3 witness: in the run of `probeLoop` over `csEx` (whose second
candidate is accepted), the third candidate is not probed and stays
Unknown. -/
theorem probe_loop_dynamics_witness : cEx3.verified = none :=
  (probe_loop_dynamics prEx csEx 5).2.2 2 cEx3 (by decide) (by decide) (by decide)

/-! ### C4: ranking invariant and stability -/

lemma keyLe_refl (x : Nat × Nat × Int) : keyLe x x := by unfold keyLe; omega

lemma candRel_iff (a b : EmailCandidate) :
    candRel a b ↔ (stateRankOf b.verified < stateRankOf a.verified ∨
      (stateRankOf a.verified = stateRankOf b.verified ∧ b.confidence ≤ a.confidence)) := by
  obtain ⟨ea, pa, ca, va, ma⟩ := a
  obtain ⟨eb, pb, cb, vb, mb⟩ := b
  unfold candRel candKey keyLe stateRankOf
  rcases va with _ | ba <;> rcases vb with _ | bb <;> try cases ba
  all_goals try cases bb
  all_goals simp

lemma filter_orderedInsert_key (a : EmailCandidate) (k : Nat × Nat × Int) :
    ∀ s : List EmailCandidate,
      (List.orderedInsert candRel a s).filter (fun c => decide (candKey c = k)) =
        if candKey a = k then
          a :: s.filter (fun c => decide (candKey c = k))
        else s.filter (fun c => decide (candKey c = k)) := by
  intro s
  induction s with
  | nil =>
    simp only [List.orderedInsert, List.filter]
    by_cases hak : candKey a = k <;> simp [hak]
  | cons b t ih =>
    simp only [List.orderedInsert]
    by_cases hr : candRel a b
    · rw [if_pos hr]
      by_cases hak : candKey a = k
      · rw [if_pos hak]
        simp [List.filter_cons, hak]
      · rw [if_neg hak]
        simp [List.filter_cons, hak]
    · rw [if_neg hr]
      by_cases hbk : candKey b = k
      · have hak : ¬ (candKey a = k) := by
          intro hak
          apply hr
          unfold candRel
          rw [hak, hbk]
          exact keyLe_refl k
        rw [if_neg hak]
        rw [List.filter_cons, List.filter_cons]
        simp only [hbk, decide_eq_true_eq, if_pos]
        rw [ih, if_neg hak]
      · simp [List.filter_cons, hbk, ih]

lemma filter_rankSort_key (l : List EmailCandidate) (k : Nat × Nat × Int) :
    (rankSort l).filter (fun c => decide (candKey c = k)) =
      l.filter (fun c => decide (candKey c = k)) := by
  unfold rankSort
  induction l with
  | nil => rfl
  | cons a t ih =>
    simp only [List.insertionSort]
    rw [filter_orderedInsert_key]
    by_cases hak : candKey a = k
    · rw [if_pos hak, ih, List.filter_cons]
      simp [hak]
    · rw [if_neg hak, ih, List.filter_cons]
      simp [hak]

/-- C4: in every ranked list, any candidate placed before another has a
strictly higher verification-state rank (Accepted = 2 before Unknown = 1
before Rejected = 0) or an equal state and no smaller confidence — so
Accepted precedes Unknown precedes Rejected and confidence is
non-increasing within a state; and the sort is stable: candidates equal
on the whole composite key keep their original relative order. -/
theorem ranking_invariant (l : List EmailCandidate) :
    List.Pairwise (fun a b => stateRankOf b.verified < stateRankOf a.verified ∨
      (stateRankOf a.verified = stateRankOf b.verified ∧ b.confidence ≤ a.confidence))
      (rankSort l) ∧
    ∀ k : Nat × Nat × Int,
      (rankSort l).filter (fun c => decide (candKey c = k)) =
        l.filter (fun c => decide (candKey c = k)) := by
  constructor
  · exact (List.sorted_insertionSort candRel l).imp (fun h => (candRel_iff _ _).mp h)
  · intro k
    exact filter_rankSort_key l k

/-! ### Generation and probing lemmas for the orchestrator claims -/

lemma dedupBy_subset {c : EmailCandidate} :
    ∀ (l : List EmailCandidate) (seen : List String), c ∈ dedupBy l seen → c ∈ l := by
  intro l
  induction l with
  | nil => intro seen h; simp [dedupBy] at h
  | cons p ps ih =>
    intro seen h
    simp only [dedupBy] at h
    split at h
    · exact List.mem_cons_of_mem p (ih _ h)
    · rcases List.mem_cons.mp h with h1 | h1
      · exact h1 ▸ List.mem_cons_self p ps
      · exact List.mem_cons_of_mem p (ih _ h1)

lemma keepCandidate_some {t : String × String × Int} {c : EmailCandidate}
    (h : keepCandidate t = some c) :
    c = ⟨pyLower t.1, t.2.1, t.2.2, none, ""⟩ := by
  unfold keepCandidate at h
  split at h
  · injection h with h
    exact h.symm
  · simp at h

lemma mkTemplates_conf {x : String × String × Int} {first last f l domain : String}
    (h : x ∈ mkTemplates first last f l domain) : 0 ≤ x.2.2 ∧ x.2.2 ≤ 100 := by
  simp only [mkTemplates, List.mem_cons, List.not_mem_nil, or_false] at h
  rcases h with h|h|h|h|h|h|h|h|h|h <;> subst h <;> exact ⟨by norm_num, by norm_num⟩

lemma mem_generate {c : EmailCandidate} {first last domain : String}
    (h : c ∈ generate_email_patterns first last domain) :
    c.verified = none ∧ 0 ≤ c.confidence ∧ c.confidence ≤ 100 := by
  simp only [generate_email_patterns] at h
  split at h
  · simp at h
  · have h2 := dedupBy_subset _ _ h
    split at h2
    · simp only [List.mem_singleton] at h2
      subst h2
      exact ⟨rfl, by norm_num, by norm_num⟩
    · rcases List.mem_filterMap.mp h2 with ⟨a, ha, hk⟩
      have hc := keepCandidate_some hk
      subst hc
      have hb := mkTemplates_conf ha
      exact ⟨rfl, hb.1, hb.2⟩

lemma probeOne_bounds {pr : String → Option Bool × String} {c : EmailCandidate}
    (h0 : 0 ≤ c.confidence) (h1 : c.confidence ≤ 100) :
    0 ≤ (probeOne pr c).confidence ∧ (probeOne pr c).confidence ≤ 100 := by
  simp only [probeOne]
  rcases hv : (pr c.email).1 with _ | b
  · simp [hv]
    exact ⟨h0, h1⟩
  · cases b
    · simp [hv]
      omega
    · simp [hv]
      omega

lemma probeLoop_bounds (pr : String → Option Bool × String) :
    ∀ (cs : List EmailCandidate) (n : Nat),
      (∀ c ∈ cs, 0 ≤ c.confidence ∧ c.confidence ≤ 100) →
      ∀ c ∈ probeLoop pr cs n, 0 ≤ c.confidence ∧ c.confidence ≤ 100 := by
  intro cs
  induction cs with
  | nil => intro n h c hc; simp [probeLoop] at hc
  | cons d ds ih =>
    intro n h c hc
    cases n with
    | zero =>
      simp only [probeLoop] at hc
      exact h c hc
    | succ n =>
      have hd := h d (List.mem_cons_self d ds)
      have hds : ∀ c ∈ ds, 0 ≤ c.confidence ∧ c.confidence ≤ 100 :=
        fun c hc => h c (List.mem_cons_of_mem d hc)
      rcases hv : (pr d.email).1 with _ | b
      · simp only [probeLoop, hv] at hc
        rcases List.mem_cons.mp hc with h1 | h1
        · exact h1 ▸ probeOne_bounds hd.1 hd.2
        · exact ih n hds c h1
      · cases b
        · simp only [probeLoop, hv] at hc
          rcases List.mem_cons.mp hc with h1 | h1
          · exact h1 ▸ probeOne_bounds hd.1 hd.2
          · exact ih n hds c h1
        · simp only [probeLoop, hv] at hc
          rcases List.mem_cons.mp hc with h1 | h1
          · exact h1 ▸ probeOne_bounds hd.1 hd.2
          · exact hds c h1

lemma countP_accepted_none {cs : List EmailCandidate} (h : ∀ c ∈ cs, c.verified = none) :
    cs.countP (fun c => c.verified == some true) = 0 :=
  List.countP_eq_zero.mpr (fun a ha => by simp [h a ha])

lemma probeOne_verified (pr : String → Option Bool × String) (c : EmailCandidate) :
    (probeOne pr c).verified = (pr c.email).1 := by
  simp only [probeOne]
  rcases hv : (pr c.email).1 with _ | b
  · simp [hv]
  · cases b <;> simp [hv]

lemma probeLoop_countP (pr : String → Option Bool × String) :
    ∀ (cs : List EmailCandidate) (n : Nat),
      (∀ c ∈ cs, c.verified = none) →
      (probeLoop pr cs n).countP (fun c => c.verified == some true) ≤ 1 := by
  intro cs
  induction cs with
  | nil => intro n h; simp [probeLoop]
  | cons d ds ih =>
    intro n h
    have hds : ∀ c ∈ ds, c.verified = none :=
      fun c hc => h c (List.mem_cons_of_mem d hc)
    cases n with
    | zero =>
      simp only [probeLoop]
      simp [countP_accepted_none h]
    | succ n =>
      rcases hv : (pr d.email).1 with _ | b
      · have hp : ((probeOne pr d).verified == some true) = false := by
          rw [probeOne_verified, hv]; rfl
        simp only [probeLoop, hv, List.countP_cons, hp]
        have h2 := ih n hds
        simp
        omega
      · cases b
        · have hp : ((probeOne pr d).verified == some true) = false := by
            rw [probeOne_verified, hv]; rfl
          simp only [probeLoop, hv, List.countP_cons, hp]
          have h2 := ih n hds
          simp
          omega
        · have hp : ((probeOne pr d).verified == some true) = true := by
            rw [probeOne_verified, hv]; rfl
          simp only [probeLoop, hv, List.countP_cons, hp]
          simp [countP_accepted_none hds]

lemma applyProbing_bounds (env : Env) (mx : List String) (v sa : Bool) (n : Nat)
    (cs : List EmailCandidate)
    (h : ∀ c ∈ cs, 0 ≤ c.confidence ∧ c.confidence ≤ 100) :
    ∀ c ∈ applyProbing env mx v sa n cs, 0 ≤ c.confidence ∧ c.confidence ≤ 100 := by
  unfold applyProbing
  split
  · split
    · exact h
    · exact probeLoop_bounds _ cs n h
  · exact h

lemma applyProbing_countP (env : Env) (mx : List String) (v sa : Bool) (n : Nat)
    (cs : List EmailCandidate) (h : ∀ c ∈ cs, c.verified = none) :
    (applyProbing env mx v sa n cs).countP (fun c => c.verified == some true) ≤ 1 := by
  unfold applyProbing
  split
  · split
    · simp [countP_accepted_none h]
    · exact probeLoop_countP _ cs n h
  · simp [countP_accepted_none h]

lemma applyProbing_id (env : Env) (mx : List String) (v sa : Bool) (n : Nat)
    (cs : List EmailCandidate) (hno : v = false ∨ sa = false ∨ mx.isEmpty = true) :
    applyProbing env mx v sa n cs = cs := by
  unfold applyProbing
  split
  · next hcond =>
    exfalso
    rcases hno with h1 | h1 | h1 <;> simp [h1] at hcond
  · rfl

lemma runPipeline_allCandidates (env : Env) (name first last domainS : String)
    (v : Bool) (n : Nat) :
    (runPipeline env name first last domainS v n).allCandidates =
      rankSort (applyProbing env (get_mx_records env.dns domainS) v
        (if v && !(get_mx_records env.dns domainS).isEmpty then env.smtpAvail else false)
        n (generate_email_patterns first last domainS)) := rfl

lemma runPipeline_verifiedEmails (env : Env) (name first last domainS : String)
    (v : Bool) (n : Nat) :
    (runPipeline env name first last domainS v n).verifiedEmails =
      (runPipeline env name first last domainS v n).allCandidates.filter
        (fun c => c.verified == some true) := rfl

lemma runPipeline_hasMx (env : Env) (name first last domainS : String)
    (v : Bool) (n : Nat) :
    (runPipeline env name first last domainS v n).hasMxRecords =
      !(get_mx_records env.dns domainS).isEmpty := rfl

lemma discover_email_report {env : Env} {name domain0 : String} {v : Bool} {n : Nat}
    {r : DiscoveryReport}
    (h : discover_email env name domain0 v n = some (DiscoverOutcome.report r)) :
    ∃ domainS : String,
      r = runPipeline env name (normalize_name name).1 (normalize_name name).2
        domainS v n := by
  simp only [discover_email] at h
  split at h
  · simp at h
  · split at h
    · simp at h
    · repeat' split at h
      all_goals first
        | (simp only [Option.some.injEq, DiscoverOutcome.report.injEq] at h
           exact ⟨_, h.symm⟩)
        | simp at h

/-! ### C7: probe gating -/

/-- C7: probing happens only when verification is requested AND the
domain has MX records AND the availability check reports port 25 usable;
whenever any of the three fails — in particular when there are no MX
records — no candidate is probed and every candidate in the report keeps
verification state Unknown. -/
theorem no_probe_all_unknown (env : Env) (name domain0 : String) (v : Bool) (n : Nat)
    (r : DiscoveryReport)
    (h : discover_email env name domain0 v n = some (DiscoverOutcome.report r))
    (hno : v = false ∨ r.hasMxRecords = false ∨ env.smtpAvail = false) :
    ∀ c ∈ r.allCandidates, c.verified = none := by
  obtain ⟨domainS, hr⟩ := discover_email_report h
  subst hr
  intro c hc
  have hside : v = false ∨
      (if v && !(get_mx_records env.dns domainS).isEmpty then env.smtpAvail else false)
        = false ∨
      (get_mx_records env.dns domainS).isEmpty = true := by
    rcases hno with h1 | h1 | h1
    · exact Or.inl h1
    · rw [runPipeline_hasMx] at h1
      exact Or.inr (Or.inr (by simpa using h1))
    · exact Or.inr (Or.inl (by rw [h1]; simp))
  rw [runPipeline_allCandidates, applyProbing_id env _ v _ n _ hside] at hc
  unfold rankSort at hc
  have hc2 := (List.perm_insertionSort candRel _).mem_iff.mp hc
  exact (mem_generate hc2).1

/-- C7 witness: in the no-MX environment, the top-ranked candidate of the
report is still Unknown even though verification was requested. -/
theorem no_probe_all_unknown_witness :
    (repNoMx.allCandidates.headD ⟨"", "", 0, none, ""⟩).verified = none :=
  no_probe_all_unknown envNoMx "Jane Doe" "acme.com" true 5 repNoMx (by decide)
    (Or.inr (Or.inl (by decide))) _ (by decide)

/-! ### C8: confidence bounds -/

/-- C8: every candidate of every successful discovery report has its
confidence inside [0,100]; moreover every single probe adjustment step
(`+10` on accept, `-30` on reject, unchanged otherwise) maps a
confidence inside [0,100] back inside [0,100], because the clamp is
applied on each adjustment. -/
theorem confidence_bounds (env : Env) (name domain0 : String) (v : Bool) (n : Nat)
    (r : DiscoveryReport)
    (h : discover_email env name domain0 v n = some (DiscoverOutcome.report r)) :
    (∀ c ∈ r.allCandidates, 0 ≤ c.confidence ∧ c.confidence ≤ 100) ∧
    (∀ (pr : String → Option Bool × String) (c : EmailCandidate),
      0 ≤ c.confidence → c.confidence ≤ 100 →
      0 ≤ (probeOne pr c).confidence ∧ (probeOne pr c).confidence ≤ 100) := by
  obtain ⟨domainS, hr⟩ := discover_email_report h
  subst hr
  constructor
  · intro c hc
    rw [runPipeline_allCandidates] at hc
    unfold rankSort at hc
    have hc2 := (List.perm_insertionSort candRel _).mem_iff.mp hc
    exact applyProbing_bounds _ _ _ _ _ _ (fun d hd => (mem_generate hd).2) c hc2
  · exact fun pr c h0 h1 => probeOne_bounds h0 h1

/-- C8 witness: the bound applied to the top-ranked candidate of the
concrete no-MX run. -/
theorem confidence_bounds_witness :
    0 ≤ (repNoMx.allCandidates.headD ⟨"", "", 0, none, ""⟩).confidence ∧
    (repNoMx.allCandidates.headD ⟨"", "", 0, none, ""⟩).confidence ≤ 100 :=
  (confidence_bounds envNoMx "Jane Doe" "acme.com" true 5 repNoMx (by decide)).1 _ (by decide)

/-! ### C10: at most one accepted candidate -/

/-- C10: in every successful discovery report at most one candidate is in
state Accepted — the probe loop stops at the first acceptance — and hence
the `verifiedEmails` list has length at most 1. -/
theorem verified_emails_at_most_one (env : Env) (name domain0 : String) (v : Bool)
    (n : Nat) (r : DiscoveryReport)
    (h : discover_email env name domain0 v n = some (DiscoverOutcome.report r)) :
    r.allCandidates.countP (fun c => c.verified == some true) ≤ 1 ∧
    r.verifiedEmails.length ≤ 1 := by
  obtain ⟨domainS, hr⟩ := discover_email_report h
  subst hr
  have hcount : (runPipeline env name (normalize_name name).1 (normalize_name name).2
      domainS v n).allCandidates.countP (fun c => c.verified == some true) ≤ 1 := by
    rw [runPipeline_allCandidates]
    unfold rankSort
    rw [(List.perm_insertionSort candRel _).countP_eq]
    exact applyProbing_countP _ _ _ _ _ _ (fun d hd => (mem_generate hd).1)
  refine ⟨hcount, ?_⟩
  rw [runPipeline_verifiedEmails, ← List.countP_eq_length_filter]
  exact hcount

/-- C10 witness: the run against `envAcc` (which accepts the third probed
candidate) reports exactly at most one verified email. -/
theorem verified_emails_at_most_one_witness : repAcc.verifiedEmails.length ≤ 1 :=
  (verified_emails_at_most_one envAcc "John Smith" "acme.com" true 5 repAcc (by decide)).2

/-! ### C9: MX resolution -/

lemma head?_dropWhile_not {p : Char → Bool} :
    ∀ (l : List Char) (a : Char), (l.dropWhile p).head? = some a → p a = false := by
  intro l
  induction l with
  | nil => intro a h; simp at h
  | cons c t ih =>
    intro a h
    rw [List.dropWhile_cons] at h
    by_cases hc : p c = true
    · rw [if_pos hc] at h
      exact ih a h
    · rw [if_neg hc] at h
      simp only [List.head?_cons, Option.some.injEq] at h
      subst h
      simpa using hc

/-- C9: for every domain, a failed DNS resolution (modelled `none`)
yields the empty host list instead of an error; a successful resolution
yields the exchange hostnames stably sorted ascending by preference,
each with trailing root-dots stripped, so no returned hostname ends in a
dot. -/
theorem mx_records_spec (dns : String → Option (List (Nat × String))) (domain : String) :
    (dns domain = none → get_mx_records dns domain = []) ∧
    (∀ recs, dns domain = some recs →
      get_mx_records dns domain = (sortByPref recs).map (fun r => stripDots r.2) ∧
      List.Pairwise (fun a b => a.1 ≤ b.1) (sortByPref recs) ∧
      ∀ s ∈ get_mx_records dns domain, s.toList.getLast? ≠ some '.') := by
  constructor
  · intro h
    unfold get_mx_records
    rw [h]
  · intro recs h
    refine ⟨?_, ?_, ?_⟩
    · unfold get_mx_records
      rw [h]
    · exact List.sorted_insertionSort prefLe recs
    · intro s hs
      unfold get_mx_records at hs
      rw [h] at hs
      rcases List.mem_map.mp hs with ⟨rec, hrec, hsd⟩
      subst hsd
      intro hbad
      have hb2 : ((rec.2.toList.reverse.dropWhile (fun c => c == '.')).reverse).getLast?
          = some '.' := hbad
      rw [List.getLast?_reverse] at hb2
      have hb3 := head?_dropWhile_not _ _ hb2
      simp at hb3

/-- C9 witness: the resolver applied to a concrete DNS answer holding two
records in reversed preference order returns them sorted, dots
stripped. -/
theorem mx_records_spec_witness :
    get_mx_records dnsEx "acme.com" = ["mx1.acme.com", "mx2.acme.com"] := by
  have h := ((mx_records_spec dnsEx "acme.com").2
    [(20, "mx2.acme.com."), (10, "mx1.acme.com.")] (by decide)).1
  rw [h]
  decide
